import Mathlib

/-!
Verification of the merkle-proof-server repository against its specification.

The development shallowly embeds the JavaScript sources:

* the merkletreejs library surface the code relies on (layer construction with
  sorted pairs, odd-node promotion, hex leaves, inclusion proofs, verify);
* the leaf hasher (abi-encoding of the token and citizen identifiers, keccak
  kept abstract as a function parameter);
* the streaming batch loop of the regeneration worker;
* the snapshot persist and load paths (gzip and JSON kept abstract as inverse
  codec parameters, the hex leaf encoding modelled concretely);
* the express handlers and the module-level mutable state of server.js,
  including the event handlers attached to the regeneration worker.

Machine bytes are modelled as natural numbers below 256 where that matters.
-/

/-! ## Bytes and buffers -/

/-- A byte buffer, as a list of byte values. -/
abbrev Bytes := List Nat

/-- A hash primitive (keccak256 in the repository), kept abstract. -/
abbrev HashFn := Bytes → Bytes

/-- Lexicographic comparison of byte buffers, as performed by Buffer.compare. -/
def bufCompare : Bytes → Bytes → Ordering
  | [], [] => Ordering.eq
  | [], _ :: _ => Ordering.lt
  | _ :: _, [] => Ordering.gt
  | a :: as, b :: bs =>
    match compare a b with
    | Ordering.eq => bufCompare as bs
    | o => o

/-! ## The merkletreejs tree model

The repository constructs trees with `new MerkleTree(leaves, keccak256, opts)`
where the options of interest are `hashLeaves` and `sortPairs`; all remaining
options keep their defaults (`sortLeaves` and `duplicateOdd` false), so an odd
node at the end of a layer is promoted unchanged. -/

/-- Combine one pair of sibling nodes: sort the pair when `sortPairs` is set
(as `[left, right].sort(Buffer.compare)` does), concatenate, and hash. -/
def combinePair (k : HashFn) (sp : Bool) (a b : Bytes) : Bytes :=
  if sp then (if bufCompare a b = Ordering.gt then k (b ++ a) else k (a ++ b))
  else k (a ++ b)

/-- One `createHashes` pass over a layer: hash consecutive pairs, promoting a
trailing odd node unchanged (duplicateOdd is off in this repository). -/
def hashLayer (k : HashFn) (sp : Bool) : List Bytes → List Bytes
  | [] => []
  | [a] => [a]
  | a :: b :: rest => combinePair k sp a b :: hashLayer k sp rest

/-- Fuelled layer construction: with enough fuel this is the merkletreejs
while-loop that repeatedly hashes the top layer until one node remains.
`buildLayers_eq` below shows the fuel chosen in `buildLayers` suffices. -/
def buildLayersF (k : HashFn) (sp : Bool) : Nat → List Bytes → List (List Bytes)
  | 0, nodes => [nodes]
  | fuel + 1, nodes =>
    if nodes.length ≤ 1 then [nodes]
    else nodes :: buildLayersF k sp fuel (hashLayer k sp nodes)

/-- All layers of the tree, leaves first, as stored in `this.layers`. -/
def buildLayers (k : HashFn) (sp : Bool) (nodes : List Bytes) : List (List Bytes) :=
  buildLayersF k sp nodes.length nodes

/-- Last element of the layer list (the root layer). -/
def lastLayer : List (List Bytes) → List Bytes
  | [] => []
  | [l] => l
  | _ :: rest => lastLayer rest

/-- `getRoot`: first node of the top layer, or the empty buffer. -/
def rootOfLeaves (k : HashFn) (sp : Bool) (leaves : List Bytes) : Bytes :=
  (lastLayer (buildLayers k sp leaves)).headD []

/-! ## Tree options, trees, inclusion proofs -/

/-- The merkletreejs options the repository uses. -/
structure MTOptions where
  hashLeaves : Bool
  sortPairs : Bool
deriving DecidableEq

/-- An in-memory tree value: the raw leaf inputs together with the options
they were constructed with. All derived data (effective leaves, layers, root,
proofs) are deterministic functions of these fields and of the hash. -/
structure STree where
  leaves : List Bytes
  options : MTOptions
deriving DecidableEq

/-- The effective leaf buffers held in `this.leaves`: the inputs, hashed first
when `hashLeaves` is set. -/
def effLeaves (k : HashFn) (t : STree) : List Bytes :=
  if t.options.hashLeaves then t.leaves.map k else t.leaves

/-- The root of a tree value. -/
def treeRoot (k : HashFn) (t : STree) : Bytes :=
  rootOfLeaves k t.options.sortPairs (effLeaves k t)

/-- The index `getProof` uses: the loop over the leaves keeps overwriting the
index on every match, so the last matching index wins. -/
def lastIndexAux (leaf : Bytes) : List Bytes → Nat → Option Nat → Option Nat
  | [], _, acc => acc
  | x :: rest, i, acc =>
    lastIndexAux leaf rest (i + 1) (if x = leaf then some i else acc)

def lastIndexOf (leaf : Bytes) (l : List Bytes) : Option Nat :=
  lastIndexAux leaf l 0 none

/-- The sibling-collection walk of `getProof`: at each layer record the pair
node when it exists (a Bool marks whether the current node is the right one),
then move the index up one level. -/
def proofWalk : List (List Bytes) → Nat → List (Bool × Bytes)
  | [], _ => []
  | layer :: rest, idx =>
    let pairIndex := if idx % 2 = 1 then idx - 1 else idx + 1
    (if h : pairIndex < layer.length
     then [(decide (idx % 2 = 1), layer.get ⟨pairIndex, h⟩)]
     else []) ++ proofWalk rest (idx / 2)

/-- `getProof` on a tree value for a candidate leaf buffer. -/
def getProofEntries (k : HashFn) (t : STree) (leaf : Bytes) : List (Bool × Bytes) :=
  match lastIndexOf leaf (effLeaves k t) with
  | none => []
  | some i => proofWalk (buildLayers k t.options.sortPairs (effLeaves k t)) i

/-! ## Hex encoding

merkletreejs serves proofs and leaves hex-encoded with a 0x prefix
(`getHexProof`, `getHexLeaves`, `getHexRoot`) and `bufferify` parses such
strings back to buffers; the snapshot artifact stores leaves in this form. -/

def hexDigitChar (n : Nat) : Char :=
  if n < 10 then Char.ofNat (48 + n) else Char.ofNat (87 + n)

def hexCharVal (c : Char) : Nat :=
  if 97 ≤ c.toNat then c.toNat - 87 else c.toNat - 48

def bytesToHexCore : Bytes → List Char
  | [] => []
  | b :: rest => hexDigitChar (b / 16) :: hexDigitChar (b % 16) :: bytesToHexCore rest

def hexToBytesCore : List Char → Bytes
  | c1 :: c2 :: rest => (16 * hexCharVal c1 + hexCharVal c2) :: hexToBytesCore rest
  | _ => []

/-- Hex encoding with the 0x prefix, as the library emits. -/
def bytesToHex (b : Bytes) : List Char :=
  '0' :: 'x' :: bytesToHexCore b

/-- `bufferify` of a hex string: strip an 0x prefix and decode byte pairs. -/
def hexToBytes : List Char → Bytes
  | '0' :: 'x' :: rest => hexToBytesCore rest
  | rest => hexToBytesCore rest

/-- `getHexProof`: the sibling data of the proof walk, hex encoded. -/
def getHexProof (k : HashFn) (t : STree) (leaf : Bytes) : List (List Char) :=
  (getProofEntries k t leaf).map (fun p => bytesToHex p.2)

/-- `verify` with the sorted-pairs rule: fold the proof data onto the leaf,
sorting each pair before hashing, and compare against the root. -/
def verifyProof (k : HashFn) (sp : Bool) (proof : List Bytes) (leaf root : Bytes) : Bool :=
  decide (proof.foldl (fun h d => combinePair k sp h d) leaf = root)

/-! ## The leaf hasher

`hashToken` abi-encodes the token value and the citizen identifier as two
256-bit big-endian words and applies keccak256 (kept abstract). -/

/-- A 32-byte big-endian encoding of a natural number, as
`AbiCoder.encode` produces for a uint256. -/
def beBytes32 (n : Nat) : Bytes :=
  (List.range 32).map (fun i => n / 256 ^ (31 - i) % 256)

/-- The leaf hasher of server.js and the worker. -/
def hashTokenM (k : HashFn) (token citizenId : Nat) : Bytes :=
  k (beBytes32 token ++ beBytes32 citizenId)

/-! ## The record source and the streaming batch loop

The regeneration worker builds one tree per chain: it counts the records up
front, then repeatedly fetches the next page of records whose identifier
exceeds the greatest one seen so far (ordered ascending, capped at the batch
size), hashes each record into a leaf and appends the batch, until a page
comes back empty or the running count reaches the total. A snapshot of the
per-chain record table is modelled as a list already ordered by identifier. -/

/-- One row of the citizenTokens table, restricted to the selected fields. -/
structure TokenRecord where
  id : Nat
  token : Nat
  citizenId : Nat
deriving DecidableEq

/-- The leaf derived from one record:
`hashToken(token.token.toString(), token.citizenId.toString())`. -/
def leafOf (k : HashFn) (r : TokenRecord) : Bytes :=
  hashTokenM k r.token r.citizenId

/-- The cursor-paginated fetch of the record source: records with identifier
strictly greater than the cursor, in order, capped at the batch size. -/
def pageFor (db : List TokenRecord) (lastId bs : Nat) : List TokenRecord :=
  (db.filter (fun r => decide (lastId < r.id))).take bs

/-- `tokens[tokens.length - 1].id`, the cursor update taken from a page. -/
def lastIdOf : List TokenRecord → Nat
  | [] => 0
  | [r] => r.id
  | _ :: rest => lastIdOf rest

/-- The worker batch loop over a fallible page fetch. Each iteration performs
one fetch; an error propagates out of the loop (the worker has no try/catch
around the fetch). Fuel bounds the iteration count; with fuel exhausted a
distinguished error results, and the adequacy of the fuel used by
`generateLeavesByChain` is part of `genLoopW_eq_of_fetch`. -/
def genLoopW (fetch : Nat → Except String (List TokenRecord)) (k : HashFn)
    (bs total : Nat) : Nat → Nat → Nat → List Bytes → Except String (List Bytes)
  | 0, _, _, _ => Except.error ("out of fuel")
  | fuel + 1, lastId, processed, acc =>
    if processed < total then
      match fetch lastId with
      | Except.error e => Except.error e
      | Except.ok page =>
        if page = [] then Except.ok acc
        else genLoopW fetch k bs total fuel (lastIdOf page)
          (processed + page.length) (acc ++ page.map (leafOf k))
    else Except.ok acc

/-- The per-chain build of the regeneration worker, over a static snapshot of
the record table: count first, then the batch loop from cursor 0. -/
def generateLeavesByChain (k : HashFn) (db : List TokenRecord) (bs : Nat) :
    Except String (List Bytes) :=
  genLoopW (fun lastId => Except.ok (pageFor db lastId bs)) k bs
    db.length (db.length + 1) 0 0 []

/-! ## The retrying fetch of server.js

`fetchTokensBatch` loops attempt = 1..retries around the database fetch; a
failed non-final attempt sleeps `5000 * attempt` milliseconds and retries, and
the final failure rethrows. Per-attempt outcomes of the database are modelled
as a function from the attempt number; the delays performed are returned
alongside the result. -/

def fetchRetry (attempts : Nat → Except String (List TokenRecord)) :
    Nat → Nat → List Nat → Except String (List TokenRecord) × List Nat
  | _, 0, delays => (Except.error ("no attempts"), delays)
  | attempt, rem + 1, delays =>
    match attempts attempt with
    | Except.ok p => (Except.ok p, delays)
    | Except.error e =>
      if rem = 0 then (Except.error e, delays)
      else fetchRetry attempts (attempt + 1) rem (delays ++ [5000 * attempt])

/-- `fetchTokensBatch(lastId, batchSize, retries = 3)` over an oracle of
per-attempt outcomes. -/
def fetchTokensBatch (attempts : Nat → Except String (List TokenRecord))
    (retries : Nat) : Except String (List TokenRecord) × List Nat :=
  fetchRetry attempts 1 retries []

/-! ## Server state and handlers

The module-level mutable bindings of server.js that the request handlers and
the worker event handlers read and write. Tree and root maps are association
lists keyed by the chain name, in insertion order, as JavaScript objects are. -/

/-- The mutable module state of server.js that serving depends on. -/
structure ServerState where
  merkleTrees : List (String × STree)
  rootHashes : List (String × List Char)
  isRegenerating : Bool
  regenerationComplete : Bool
deriving DecidableEq

/-- Assignment `m[key] = v` on a JavaScript object modelled as an association
list: overwrite in place when the key exists, append otherwise. -/
def updAssoc (m : List (String × STree)) (key : String) (v : STree) :
    List (String × STree) :=
  if m.any (fun p => p.1 == key) then
    m.map (fun p => if p.1 == key then (key, v) else p)
  else m ++ [(key, v)]

/-- `merkleTrees[chain]` as the proof handler reads it. -/
def getTree (s : ServerState) (chain : String) : Option STree :=
  (s.merkleTrees.find? (fun p => p.1 == chain)).map (fun p => p.2)

/-- `rootHashes[chain]` as the root-hash handler reads it. -/
def getRootH (s : ServerState) (chain : String) : Option (List Char) :=
  (s.rootHashes.find? (fun p => p.1 == chain)).map (fun p => p.2)

/-- A JSON response value of the handlers. -/
inductive RVal where
  | str : String → RVal
  | hex : List Char → RVal
  | arr : List (List Char) → RVal
deriving DecidableEq

/-- The handler of `GET /proof/:chain/:citizenId/:token`: reject when no tree
is loaded for the chain, otherwise hash the parameters into a leaf and answer
with the hex proof — and nothing else. -/
def chainProofHandler (k : HashFn) (s : ServerState) (chain : String)
    (citizenId token : Nat) : Nat × List (String × RVal) :=
  match getTree s chain with
  | none => (400, [("error", RVal.str ("Invalid chain or Merkle tree not loaded"))])
  | some t =>
    (200, [("proof", RVal.arr (getHexProof k t (hashTokenM k token citizenId)))])

/-- The handler of `GET /rootHash/:chain`. -/
def rootHashHandler (s : ServerState) (chain : String) :
    Nat × List (String × RVal) :=
  match getRootH s chain with
  | none => (400, [("error", RVal.str ("Invalid or unsupported chain: " ++ chain))])
  | some r => (200, [("rootHash", RVal.hex r)])

/-- The handler of `POST /regenerate-trees`: status, next state, and whether a
regeneration worker is spawned. -/
def regenerateHandler (s : ServerState) : Nat × ServerState × Bool :=
  if s.isRegenerating then (409, s, false)
  else (200, { s with isRegenerating := true, regenerationComplete := false }, true)

/-! ## Publication of a completed rebuild

On a `complete` message the handler stores the new root-hash map in one
assignment, then `loadMerkleTrees` replaces the tree of each chain in turn
(with awaited file reads in between), and finally the flags are set. Every
intermediate state is observable by concurrently served requests; the trace
below lists them in order. -/

/-- The states passed through while `loadMerkleTrees` loads each chain in
sequence, together with the final state. -/
def loadStatesAux (s : ServerState) :
    List (String × STree) → List ServerState × ServerState
  | [] => ([], s)
  | (c, t) :: rest =>
    let s1 := { s with merkleTrees := updAssoc s.merkleTrees c t }
    let pr := loadStatesAux s1 rest
    (s1 :: pr.1, pr.2)

/-- The state after the whole `complete` handler has run. -/
def publishFinal (s : ServerState) (nr : List (String × List Char))
    (nt : List (String × STree)) : ServerState :=
  { (loadStatesAux { s with rootHashes := nr } nt).2 with
      regenerationComplete := true, isRegenerating := false }

/-- All states a request can be served from while a completed rebuild is being
published, in order: the prior state, the state right after the root-hash map
swap, each per-chain tree load, and the final state. -/
def publishTrace (s : ServerState) (nr : List (String × List Char))
    (nt : List (String × STree)) : List ServerState :=
  s :: { s with rootHashes := nr } ::
    ((loadStatesAux { s with rootHashes := nr } nt).1 ++ [publishFinal s nr nt])

/-! ## Worker events as seen by server.js

The regeneration worker posts `progress`, `complete` or `error` messages; the
server attaches `message`, `error` and `exit` listeners. The message handler
matches only `complete` and `progress`, so an `error` message changes
nothing. When the worker catches a build failure it posts an `error` message
and keeps running (its parentPort listener keeps it alive), so neither the
`error` event nor a nonzero `exit` fires. -/

inductive WEvent where
  | msgComplete : List (String × List Char) → List (String × STree) → WEvent
  | msgProgress : WEvent
  | msgError : String → WEvent
  | workerErrored : WEvent
  | workerExited : Nat → WEvent
  | httpRegenerate : WEvent

/-- The state transition of server.js on one event. -/
def stepEv (s : ServerState) : WEvent → ServerState
  | WEvent.msgComplete nr nt => publishFinal s nr nt
  | WEvent.msgProgress => s
  | WEvent.msgError _ => s
  | WEvent.workerErrored =>
    { s with isRegenerating := false, regenerationComplete := false }
  | WEvent.workerExited code =>
    if code = 0 then s
    else { s with isRegenerating := false, regenerationComplete := false }
  | WEvent.httpRegenerate =>
    if s.isRegenerating then s
    else { s with isRegenerating := true, regenerationComplete := false }

def runEvents (s : ServerState) (evs : List WEvent) : ServerState :=
  evs.foldl stepEv s

/-- The events server.js receives from a rebuild whose build loop threw: the
worker catch posts one `error` message and the worker stays alive. -/
def failedRebuildEvents (e : String) : List WEvent :=
  [WEvent.httpRegenerate, WEvent.msgError e]

/-! ## The snapshot codec

The worker persists, per chain, the gzip of the JSON of
`{ leaves: tree.getHexLeaves(), options: { hashLeaves: false, sortPairs: true } }`
with a single `fs.writeFile` to the final per-chain path, after a recursive
mkdir of the directory. `loadMerkleTrees` reads the file, gunzips, parses and
reconstructs the tree from the stored hex leaves and stored options. JSON and
gzip are external libraries, taken as codec parameters; the hex encoding of
the leaves is modelled concretely above. -/

/-- The decompressed, parsed payload of a snapshot artifact. -/
structure Artifact where
  leaves : List (List Char)
  options : MTOptions
deriving DecidableEq

/-- The tree the worker holds just before persisting: leaves accumulated by
`addLeaves` into `new MerkleTree([], keccak256, { sortPairs: true })`. -/
def mkWorkerTree (leaves : List Bytes) : STree :=
  { leaves := leaves, options := { hashLeaves := false, sortPairs := true } }

/-- The artifact the worker serializes: hex leaves and the recorded options. -/
def persistArtifact (k : HashFn) (t : STree) : Artifact :=
  { leaves := (effLeaves k t).map bytesToHex
    options := { hashLeaves := false, sortPairs := true } }

/-- Reconstruction performed by `loadMerkleTrees`:
`new MerkleTree(treeData.leaves, keccak256, treeData.options)`. -/
def treeOfArtifact (a : Artifact) : STree :=
  { leaves := a.leaves.map hexToBytes, options := a.options }

/-- The byte stream written to disk for one chain. -/
def persistBytes (gz : List Char → List Nat) (jstr : Artifact → List Char)
    (k : HashFn) (t : STree) : List Nat :=
  gz (jstr (persistArtifact k t))

/-- Loading one persisted artifact back into a tree value. -/
def loadTree (gunz : List Nat → List Char) (jparse : List Char → Option Artifact)
    (bytes : List Nat) : Option STree :=
  (jparse (gunz bytes)).map treeOfArtifact

/-- Filesystem operations, for the persist trace. -/
inductive FsOp where
  | mkdirRec : String → FsOp
  | writeFile : String → List Nat → FsOp
  | renameFile : String → String → FsOp
deriving DecidableEq

def isRenameOp : FsOp → Bool
  | FsOp.renameFile _ _ => true
  | _ => false

def writeTargetOf : FsOp → Option String
  | FsOp.writeFile p _ => some p
  | _ => none

/-- `path.join(__dirname, "merkle_trees", chain + "_tree.json.gz")`. -/
def treeFilePath (chain : String) : String :=
  "merkle_trees/" ++ chain ++ "_tree.json.gz"

/-- The filesystem operations the worker performs to persist one chain:
a recursive mkdir, then one write of the complete compressed artifact,
directly to the final path. -/
def persistOps (gz : List Char → List Nat) (jstr : Artifact → List Char)
    (k : HashFn) (chain : String) (t : STree) : List FsOp :=
  [FsOp.mkdirRec ("merkle_trees"),
   FsOp.writeFile (treeFilePath chain) (persistBytes gz jstr k t)]

/-! ## Concrete fixtures

A small computable stand-in for keccak256 used wherever a concrete evaluation
is needed; the content of those theorems does not depend on which hash is
plugged in. -/

def kCex : HashFn := fun b => [(b.foldl (fun a x => a + x) 0) % 256]

def tOldE : STree := { leaves := [[1], [2]], options := { hashLeaves := false, sortPairs := true } }

def tOldA : STree := { leaves := [[7], [8]], options := { hashLeaves := false, sortPairs := true } }

def tNewE : STree := { leaves := [[5], [6]], options := { hashLeaves := false, sortPairs := true } }

def tNewA : STree := { leaves := [[9], [10]], options := { hashLeaves := false, sortPairs := true } }

/-- `getHexRoot` of a tree under the concrete hash. -/
def hexOf (t : STree) : List Char := bytesToHex (treeRoot kCex t)

/-- The published, idle state: two chains served, no rebuild running. -/
def sPub : ServerState :=
  { merkleTrees := [("ETH", tOldE), ("ARB", tOldA)]
    rootHashes := [("ETH", hexOf tOldE), ("ARB", hexOf tOldA)]
    isRegenerating := false
    regenerationComplete := true }

/-- The same published state while a rebuild is in flight. -/
def sMid : ServerState := { sPub with isRegenerating := true, regenerationComplete := false }

/-- The root-hash map a completed rebuild delivers. -/
def nrNew : List (String × List Char) := [("ETH", hexOf tNewE), ("ARB", hexOf tNewA)]

/-- The tree set a completed rebuild delivers. -/
def ntNew : List (String × STree) := [("ETH", tNewE), ("ARB", tNewA)]

/-- The state between the root-hash swap and the first tree load. -/
def sTorn : ServerState := { sMid with rootHashes := nrNew }

/-- A record table snapshot with three rows, as in the specification example. -/
def dbEx : List TokenRecord :=
  [{ id := 1, token := 10, citizenId := 1 },
   { id := 2, token := 20, citizenId := 2 },
   { id := 3, token := 30, citizenId := 1 }]

/-- A per-attempt oracle that fails transiently: attempt 1 errors, later
attempts succeed. -/
def attemptsTransient : Nat → Except String (List TokenRecord) :=
  fun a => if a = 1 then Except.error ("ECONNRESET") else Except.ok dbEx

/-- A per-attempt oracle that always fails. -/
def attemptsDown : Nat → Except String (List TokenRecord) :=
  fun _ => Except.error ("database unavailable")

/-- The leaves used by the C2 witness. -/
def leavesW : List Bytes := [[1], [2], [3]]

/-- The artifact the C2 witness persists. -/
def artW : Artifact := persistArtifact kCex (mkWorkerTree leavesW)

/-! ## Theorems -/

theorem hashLayer_length (k : HashFn) (sp : Bool) :
    ∀ l : List Bytes, (hashLayer k sp l).length = (l.length + 1) / 2
  | [] => by simp [hashLayer]
  | [_] => by simp [hashLayer]
  | _ :: _ :: rest => by
    simp only [hashLayer, List.length_cons, hashLayer_length k sp rest]
    omega

theorem buildLayersF_succ (k : HashFn) (sp : Bool) (fuel : Nat) (nodes : List Bytes) :
    buildLayersF k sp (fuel + 1) nodes =
      if nodes.length ≤ 1 then [nodes]
      else nodes :: buildLayersF k sp fuel (hashLayer k sp nodes) := rfl

theorem buildLayersF_irrel (k : HashFn) (sp : Bool) :
    ∀ f1 f2 : Nat, ∀ n : List Bytes, n.length ≤ f1 + 1 → n.length ≤ f2 + 1 →
      buildLayersF k sp f1 n = buildLayersF k sp f2 n := by
  intro f1
  induction f1 with
  | zero =>
    intro f2 n h1 _
    match f2 with
    | 0 => rfl
    | g + 1 => rw [buildLayersF_succ, if_pos h1]; rfl
  | succ fp ih =>
    intro f2 n h1 h2
    by_cases hl : n.length ≤ 1
    · rw [buildLayersF_succ, if_pos hl]
      match f2 with
      | 0 => rfl
      | g + 1 => rw [buildLayersF_succ, if_pos hl]
    · have hbig : 2 ≤ n.length := by omega
      obtain ⟨g, rfl⟩ : ∃ m, f2 = m + 1 := ⟨f2 - 1, by omega⟩
      have hh : (hashLayer k sp n).length = (n.length + 1) / 2 :=
        hashLayer_length k sp n
      rw [buildLayersF_succ, buildLayersF_succ, if_neg hl, if_neg hl]
      exact congrArg (n :: ·) (ih g (hashLayer k sp n) (by omega) (by omega))

/-- The fuelled construction satisfies the unfolding equation of the
merkletreejs while-loop, so the fuel is adequate. -/
theorem buildLayers_eq (k : HashFn) (sp : Bool) (nodes : List Bytes) :
    buildLayers k sp nodes =
      if nodes.length ≤ 1 then [nodes]
      else nodes :: buildLayers k sp (hashLayer k sp nodes) := by
  by_cases hl : nodes.length ≤ 1
  · rw [if_pos hl]
    show buildLayersF k sp nodes.length nodes = [nodes]
    match hn : nodes.length with
    | 0 => rfl
    | m + 1 => rw [buildLayersF_succ, if_pos hl]
  · rw [if_neg hl]
    have hbig : 2 ≤ nodes.length := by omega
    have hh : (hashLayer k sp nodes).length = (nodes.length + 1) / 2 :=
      hashLayer_length k sp nodes
    show buildLayersF k sp nodes.length nodes = _
    obtain ⟨m, hm⟩ : ∃ m, nodes.length = m + 1 := ⟨nodes.length - 1, by omega⟩
    rw [hm, buildLayersF_succ, if_neg (hm ▸ hl)]
    exact congrArg (nodes :: ·)
      (buildLayersF_irrel k sp m (hashLayer k sp nodes).length (hashLayer k sp nodes)
        (by omega) (by omega))

theorem lastIndexAux_not_mem (leaf : Bytes) :
    ∀ (l : List Bytes) (i : Nat) (acc : Option Nat), leaf ∉ l →
      lastIndexAux leaf l i acc = acc := by
  intro l
  induction l with
  | nil => intro i acc _; rfl
  | cons x rest ih =>
    intro i acc hmem
    have hx : x ≠ leaf := fun h => hmem (h ▸ List.mem_cons_self x rest)
    have hrest : leaf ∉ rest := fun h => hmem (List.mem_cons_of_mem x h)
    simp only [lastIndexAux, if_neg hx]
    exact ih (i + 1) acc hrest

theorem lastIndexOf_not_mem (leaf : Bytes) (l : List Bytes) (h : leaf ∉ l) :
    lastIndexOf leaf l = none :=
  lastIndexAux_not_mem leaf l 0 none h

theorem hexCharVal_hexDigitChar : ∀ n : Nat, n < 16 → hexCharVal (hexDigitChar n) = n := by
  decide

theorem hexCore_roundtrip :
    ∀ b : Bytes, (∀ x ∈ b, x < 256) → hexToBytesCore (bytesToHexCore b) = b := by
  intro b
  induction b with
  | nil => intro _; rfl
  | cons x rest ih =>
    intro h
    have hx : x < 256 := h x (List.mem_cons_self x rest)
    have hdiv : x / 16 < 16 := by omega
    have hmod : x % 16 < 16 := by omega
    simp only [bytesToHexCore, hexToBytesCore]
    rw [hexCharVal_hexDigitChar _ hdiv, hexCharVal_hexDigitChar _ hmod]
    rw [ih (fun y hy => h y (List.mem_cons_of_mem x hy))]
    rw [Nat.div_add_mod x 16]

theorem hex_roundtrip (b : Bytes) (h : ∀ x ∈ b, x < 256) :
    hexToBytes (bytesToHex b) = b := by
  show hexToBytesCore (bytesToHexCore b) = b
  exact hexCore_roundtrip b h

theorem hex_map_roundtrip (ls : List Bytes) (h : ∀ b ∈ ls, ∀ x ∈ b, x < 256) :
    (ls.map bytesToHex).map hexToBytes = ls := by
  induction ls with
  | nil => rfl
  | cons b rest ih =>
    simp only [List.map_cons]
    rw [hex_roundtrip b (h b (List.mem_cons_self b rest)),
      ih (fun y hy => h y (List.mem_cons_of_mem b hy))]

theorem lastIdOf_mem :
    ∀ l : List TokenRecord, l ≠ [] → ∃ r ∈ l, lastIdOf l = r.id := by
  intro l
  induction l with
  | nil => intro h; exact absurd rfl h
  | cons a t ih =>
    intro _
    match t with
    | [] => exact ⟨a, List.mem_cons_self a [], rfl⟩
    | b :: ts =>
      obtain ⟨r, hr, he⟩ := ih (by simp)
      exact ⟨r, List.mem_cons_of_mem a hr, he⟩

/-- Raising the cursor refines the fetch filter: records past a higher cursor
are exactly the records past a lower cursor that are also past the higher. -/
theorem filter_cursor_trans (l : List TokenRecord) (a m : Nat) (ham : a ≤ m) :
    l.filter (fun r => decide (m < r.id)) =
      (l.filter (fun r => decide (a < r.id))).filter (fun r => decide (m < r.id)) := by
  induction l with
  | nil => rfl
  | cons r t ih =>
    by_cases hm : m < r.id
    · have ha : a < r.id := by omega
      simp [List.filter_cons, hm, ha, ih]
    · by_cases ha : a < r.id
      · simp [List.filter_cons, hm, ha, ih]
      · simp [List.filter_cons, hm, ha, ih]

/-- In a strictly ascending record list, the records past the last identifier
of the first page are exactly the records after that page. -/
theorem filter_past_page (rest : List TokenRecord) :
    ∀ bs : Nat, 1 ≤ bs → rest.Pairwise (fun a b => a.id < b.id) →
      rest.filter (fun r => decide (lastIdOf (rest.take bs) < r.id)) = rest.drop bs := by
  induction rest with
  | nil => intro bs _ _; simp
  | cons a t ih =>
    intro bs hbs hp
    obtain ⟨b, rfl⟩ : ∃ b, bs = b + 1 := ⟨bs - 1, by omega⟩
    rw [List.take_succ_cons]
    have hat : ∀ x ∈ t, a.id < x.id := (List.pairwise_cons.mp hp).1
    by_cases htb : t.take b = []
    · rw [htb]
      have hfa : List.filter (fun r => decide (lastIdOf [a] < r.id)) (a :: t) = t := by
        simp only [lastIdOf, List.filter_cons, decide_eq_false (lt_irrefl a.id),
          Bool.false_eq_true, if_false]
        exact List.filter_eq_self.mpr (fun x hx => decide_eq_true (hat x hx))
      rcases (List.take_eq_nil_iff).mp htb with hb0 | ht0
      · rw [hb0, hfa, List.drop_succ_cons, List.drop_zero]
      · subst ht0
        simp [lastIdOf]
    · have hb1 : 1 ≤ b := by
        rcases Nat.eq_zero_or_pos b with h0 | h1
        · rw [h0] at htb; exact absurd rfl htb
        · exact h1
      have htne : t ≠ [] := by
        intro h; rw [h] at htb; simp at htb
      have hlast : lastIdOf (a :: t.take b) = lastIdOf (t.take b) := by
        match hq : t.take b with
        | [] => exact absurd hq htb
        | y :: ys => rfl
      rw [hlast]
      obtain ⟨r, hrmem, hrid⟩ := lastIdOf_mem (t.take b) htb
      have hrt : r ∈ t := List.take_subset b t hrmem
      have har : a.id < r.id := hat r hrt
      have hdropa :
          List.filter (fun x => decide (lastIdOf (t.take b) < x.id)) (a :: t) =
            List.filter (fun x => decide (lastIdOf (t.take b) < x.id)) t := by
        simp only [List.filter_cons]
        rw [decide_eq_false (by omega : ¬ lastIdOf (t.take b) < a.id)]
        simp
      rw [hdropa, List.drop_succ_cons]
      exact ih b hb1 (List.pairwise_cons.mp hp).2

/-- The batch loop over a static record snapshot consumes exactly the records
past the cursor, in order: the generic invariant behind pagination
completeness. -/
theorem genLoopW_eq_of_fetch (k : HashFn) (db : List TokenRecord) (bs : Nat)
    (hbs : 1 ≤ bs) (hsort : db.Pairwise (fun a b => a.id < b.id)) :
    ∀ (fuel : Nat) (rest : List TokenRecord) (lastId : Nat) (acc : List Bytes),
      db.filter (fun r => decide (lastId < r.id)) = rest →
      rest.length < fuel →
      genLoopW (fun lid => Except.ok (pageFor db lid bs)) k bs db.length fuel lastId
        (db.length - rest.length) acc = Except.ok (acc ++ rest.map (leafOf k)) := by
  intro fuel
  induction fuel with
  | zero => intro rest lastId acc _ hfuel; omega
  | succ fuel ih =>
    intro rest lastId acc hfilter hfuel
    have hlen : rest.length ≤ db.length := by
      rw [← hfilter]; exact List.length_filter_le _ _
    match rest, hfilter, hfuel, hlen with
    | [], hfilter, _, _ =>
      simp [genLoopW]
    | r :: t, hfilter, hfuel, hlen =>
      have hproc : db.length - (r :: t).length < db.length := by
        simp only [List.length_cons] at hlen ⊢; omega
      have hpage : pageFor db lastId bs = (r :: t).take bs := by
        rw [pageFor, hfilter]
      have hne : (r :: t).take bs ≠ [] := by
        intro h
        rcases List.take_eq_nil_iff.mp h with h0 | h0
        · omega
        · exact List.noConfusion h0
      simp only [genLoopW, if_pos hproc, hpage, if_neg hne]
      have hsRest : (r :: t).Pairwise (fun a b => a.id < b.id) := by
        have h2 : (db.filter (fun x => decide (lastId < x.id))).Pairwise
            (fun a b => a.id < b.id) :=
          List.Pairwise.filter _ hsort
        rw [hfilter] at h2
        exact h2
      have hall : ∀ x ∈ r :: t, lastId < x.id := by
        intro x hx
        rw [← hfilter] at hx
        exact of_decide_eq_true (List.mem_filter.mp hx).2
      obtain ⟨rr, hrrmem, hrrid⟩ := lastIdOf_mem ((r :: t).take bs) hne
      have hmid : lastId < lastIdOf ((r :: t).take bs) := by
        rw [hrrid]
        exact hall rr (List.take_subset bs (r :: t) hrrmem)
      have hfilterNew :
          db.filter (fun x => decide (lastIdOf ((r :: t).take bs) < x.id)) =
            (r :: t).drop bs := by
        rw [filter_cursor_trans db lastId (lastIdOf ((r :: t).take bs)) (by omega),
          hfilter, filter_past_page (r :: t) bs hbs hsRest]
      have harith :
          db.length - (r :: t).length + ((r :: t).take bs).length =
            db.length - ((r :: t).drop bs).length := by
        simp only [List.length_take, List.length_drop, List.length_cons] at hlen ⊢
        omega
      have hfuel2 : ((r :: t).drop bs).length < fuel := by
        simp only [List.length_drop, List.length_cons] at hfuel ⊢
        omega
      rw [harith,
        ih ((r :: t).drop bs) (lastIdOf ((r :: t).take bs))
          (acc ++ ((r :: t).take bs).map (leafOf k)) hfilterNew hfuel2,
        List.append_assoc, ← List.map_append, List.take_append_drop]

theorem getLast_append_singleton {α : Type} (l : List α) (x : α) :
    (l ++ [x]).getLast? = some x := by
  induction l with
  | nil => rfl
  | cons a t ih =>
    rw [List.cons_append, List.getLast?_cons, ih]
    rfl

/-- The sequential tree loads accumulate exactly the per-chain assignments and
touch neither the root hashes nor the flags. -/
theorem loadStatesAux_final :
    ∀ (nt : List (String × STree)) (s : ServerState),
      (loadStatesAux s nt).2.merkleTrees =
        nt.foldl (fun m p => updAssoc m p.1 p.2) s.merkleTrees
      ∧ (loadStatesAux s nt).2.rootHashes = s.rootHashes
      ∧ (loadStatesAux s nt).2.isRegenerating = s.isRegenerating
      ∧ (loadStatesAux s nt).2.regenerationComplete = s.regenerationComplete := by
  intro nt
  induction nt with
  | nil => intro s; exact ⟨rfl, rfl, rfl, rfl⟩
  | cons p rest ih =>
    intro s
    obtain ⟨c, t⟩ := p
    simpa [loadStatesAux] using
      ih { s with merkleTrees := updAssoc s.merkleTrees c t }

/-! ## Claim theorems -/

/-- C4: at most one rebuild is in flight. A regeneration request arriving
while the isRegenerating flag is set is rejected immediately with 409 (the
rebuild-already-in-progress signal), leaves the state unchanged (nothing is
queued) and spawns no worker; a request arriving when idle is accepted with
200, spawns the worker, sets the flag and touches neither the published trees
nor the published roots. -/
theorem c4_single_flight_rebuild (s : ServerState) :
    (s.isRegenerating = true → regenerateHandler s = (409, s, false))
    ∧ (s.isRegenerating = false →
        (regenerateHandler s).1 = 200
        ∧ (regenerateHandler s).2.2 = true
        ∧ (regenerateHandler s).2.1.isRegenerating = true
        ∧ (regenerateHandler s).2.1.merkleTrees = s.merkleTrees
        ∧ (regenerateHandler s).2.1.rootHashes = s.rootHashes) := by
  constructor
  · intro h
    simp [regenerateHandler, h]
  · intro h
    simp [regenerateHandler, h]

/-- Witness for C4 at concrete states: a busy state rejects with 409 and an
idle state is accepted with 200. -/
theorem c4_single_flight_rebuild_witness :
    regenerateHandler sMid = (409, sMid, false)
    ∧ (regenerateHandler sPub).1 = 200 :=
  ⟨(c4_single_flight_rebuild sMid).1 rfl, ((c4_single_flight_rebuild sPub).2 rfl).1⟩

/-- C9: requests for a partition with no published tree (respectively no
published root) fail with the client-facing invalid-chain error and carry no
proof or root, and requests for a published partition never produce that
error: the 400 status is equivalent to the partition being absent from the
corresponding published map. -/
theorem c9_unknown_partition (k : HashFn) (s : ServerState) (chain : String)
    (citizenId token : Nat) :
    ((chainProofHandler k s chain citizenId token).1 = 400 ↔ getTree s chain = none)
    ∧ (getTree s chain = none →
        chainProofHandler k s chain citizenId token =
          (400, [("error", RVal.str ("Invalid chain or Merkle tree not loaded"))]))
    ∧ ((rootHashHandler s chain).1 = 400 ↔ getRootH s chain = none)
    ∧ (getRootH s chain = none →
        rootHashHandler s chain =
          (400, [("error", RVal.str ("Invalid or unsupported chain: " ++ chain))])) := by
  refine ⟨?_, ?_, ?_, ?_⟩
  · cases h : getTree s chain with
    | none => simp [chainProofHandler, h]
    | some t => simp [chainProofHandler, h]
  · intro h
    simp [chainProofHandler, h]
  · cases h : getRootH s chain with
    | none => simp [rootHashHandler, h]
    | some r => simp [rootHashHandler, h]
  · intro h
    simp [rootHashHandler, h]

/-- Witness for C9: an unknown chain is rejected by both endpoints on the
concrete published state, and the published chain is not. -/
theorem c9_unknown_partition_witness :
    chainProofHandler kCex sPub ("DOGE") 1 10 =
      (400, [("error", RVal.str ("Invalid chain or Merkle tree not loaded"))])
    ∧ rootHashHandler sPub ("DOGE") =
      (400, [("error", RVal.str ("Invalid or unsupported chain: " ++ "DOGE"))])
    ∧ ((chainProofHandler kCex sPub ("ETH") 1 10).1 = 400 ↔ getTree sPub ("ETH") = none) :=
  ⟨(c9_unknown_partition kCex sPub ("DOGE") 1 10).2.1 (by decide),
   (c9_unknown_partition kCex sPub ("DOGE") 1 10).2.2.2 (by decide),
   (c9_unknown_partition kCex sPub ("ETH") 1 10).1⟩

/-- C8 counterexample: on a published partition the proof endpoint answers
200 with an object whose only field is the proof array; it contains neither
the computed leaf hash nor the currently published root hash, refuting the
claim that getProof returns all three. -/
theorem c8_counterexample :
    (chainProofHandler kCex sPub ("ETH") 1 10).1 = 200
    ∧ (chainProofHandler kCex sPub ("ETH") 1 10).2.map Prod.fst = ["proof"]
    ∧ (("rootHash" : String) ∉ (chainProofHandler kCex sPub ("ETH") 1 10).2.map Prod.fst)
    ∧ (("leafHash" : String) ∉ (chainProofHandler kCex sPub ("ETH") 1 10).2.map Prod.fst) := by
  refine ⟨rfl, rfl, by decide, by decide⟩

/-- C8 amended: for every proof request on a published partition the chain
endpoint responds 200 with only the proof path computed for the leaf hash of
the token and citizen parameters; the leaf hash and the root are not part of
the response, the partition root being served separately by the root-hash
endpoint. -/
theorem c8_proof_endpoint_amended (k : HashFn) (s : ServerState) (chain : String)
    (citizenId token : Nat) (t : STree) (r : List Char)
    (ht : getTree s chain = some t) (hr : getRootH s chain = some r) :
    chainProofHandler k s chain citizenId token =
      (200, [("proof", RVal.arr (getHexProof k t (hashTokenM k token citizenId)))])
    ∧ rootHashHandler s chain = (200, [("rootHash", RVal.hex r)]) := by
  constructor
  · simp [chainProofHandler, ht]
  · simp [rootHashHandler, hr]

/-- Witness for the amended C8 on the concrete published state. -/
theorem c8_proof_endpoint_amended_witness :
    chainProofHandler kCex sPub ("ETH") 1 10 =
      (200, [("proof", RVal.arr (getHexProof kCex tOldE (hashTokenM kCex 10 1)))])
    ∧ rootHashHandler sPub ("ETH") = (200, [("rootHash", RVal.hex (hexOf tOldE))]) :=
  c8_proof_endpoint_amended kCex sPub ("ETH") 1 10 tOldE (hexOf tOldE)
    (by decide) (by decide)

/-- C10: for a published partition and a leaf hash absent from the tree, the
proof endpoint does not fail: it answers 200 carrying an empty proof array
(the getHexProof result for an absent leaf), and an empty proof can only
verify against a root equal to the leaf itself, so it cannot verify against
any differing published root. -/
theorem c10_absent_leaf_empty_proof (k : HashFn) (s : ServerState) (chain : String)
    (citizenId token : Nat) (t : STree)
    (ht : getTree s chain = some t)
    (habs : hashTokenM k token citizenId ∉ effLeaves k t) :
    chainProofHandler k s chain citizenId token = (200, [("proof", RVal.arr [])])
    ∧ ∀ root : Bytes, hashTokenM k token citizenId ≠ root →
        verifyProof k true [] (hashTokenM k token citizenId) root = false := by
  constructor
  · simp [chainProofHandler, ht, getHexProof, getProofEntries,
      lastIndexOf_not_mem _ _ habs]
  · intro root hne
    unfold verifyProof
    simp only [List.foldl_nil]
    exact decide_eq_false hne

/-- Witness for C10: a pair never inserted yields a 200 response with an
empty proof on the concrete published state, and that proof does not verify
against the published root. -/
theorem c10_absent_leaf_empty_proof_witness :
    chainProofHandler kCex sPub ("ETH") 9 999 = (200, [("proof", RVal.arr [])])
    ∧ verifyProof kCex true [] (hashTokenM kCex 999 9) (treeRoot kCex tOldE) = false :=
  ⟨(c10_absent_leaf_empty_proof kCex sPub ("ETH") 9 999 tOldE (by decide) (by decide)).1,
   (c10_absent_leaf_empty_proof kCex sPub ("ETH") 9 999 tOldE (by decide) (by decide)).2
     (treeRoot kCex tOldE) (by decide)⟩

/-- C3, demonstrating the code bug: when the worker build fails it posts an
error message, but the server message handler matches only complete and
progress, so the state after an accepted rebuild followed by the error
message still has isRegenerating set. The published trees and roots are
indeed untouched and servable, but no Failed transition happens and every
subsequent rebuild request is rejected with 409, contradicting the claim that
a subsequent rebuild request can be accepted. -/
theorem c3_failed_rebuild_leaves_flag_stuck :
    runEvents sPub (failedRebuildEvents ("Error generating Merkle trees")) =
      { sPub with isRegenerating := true, regenerationComplete := false }
    ∧ (runEvents sPub (failedRebuildEvents ("Error generating Merkle trees"))).merkleTrees
        = sPub.merkleTrees
    ∧ (runEvents sPub (failedRebuildEvents ("Error generating Merkle trees"))).rootHashes
        = sPub.rootHashes
    ∧ (regenerateHandler
        (runEvents sPub (failedRebuildEvents ("Error generating Merkle trees")))).1 = 409
    ∧ rootHashHandler
        (runEvents sPub (failedRebuildEvents ("Error generating Merkle trees"))) ("ETH")
        = rootHashHandler sPub ("ETH") := by
  refine ⟨rfl, rfl, rfl, rfl, rfl⟩

/-- C1 counterexample: during publication of a completed rebuild there is a
served state, a member of the publication trace, in which the root endpoint
already answers with the new generation root for ETH while the tree serving
proofs for ETH is still the old generation tree, whose root differs — a new
root paired with an old tree for the same partition. -/
theorem c1_publication_not_atomic_counterexample :
    sTorn ∈ publishTrace sMid nrNew ntNew
    ∧ rootHashHandler sTorn ("ETH") = (200, [("rootHash", RVal.hex (hexOf tNewE))])
    ∧ getTree sTorn ("ETH") = some tOldE
    ∧ hexOf tNewE ≠ hexOf tOldE
    ∧ hexOf tNewE = bytesToHex (treeRoot kCex tNewE) := by
  refine ⟨by decide, by decide, by decide, by decide, rfl⟩

/-- C1 amended: publication of a completed rebuild is not one atomic
replacement. The handler first swaps the whole root-hash map in a single
assignment and then loads the trees chain by chain; the state with the new
roots and all old trees is part of the served trace, and only the final state
of the trace carries the complete new tree set (all per-chain assignments
applied), the new roots, and the cleared flags. -/
theorem c1_publication_amended (s : ServerState) (nr : List (String × List Char))
    (nt : List (String × STree)) :
    { s with rootHashes := nr } ∈ publishTrace s nr nt
    ∧ (publishTrace s nr nt).getLast? = some (publishFinal s nr nt)
    ∧ (publishFinal s nr nt).rootHashes = nr
    ∧ (publishFinal s nr nt).merkleTrees =
        nt.foldl (fun m p => updAssoc m p.1 p.2) s.merkleTrees
    ∧ (publishFinal s nr nt).isRegenerating = false
    ∧ (publishFinal s nr nt).regenerationComplete = true := by
  refine ⟨List.mem_cons_of_mem _ (List.mem_cons_self _ _), ?_, ?_, ?_, rfl, rfl⟩
  · show (s :: { s with rootHashes := nr } ::
      ((loadStatesAux { s with rootHashes := nr } nt).1 ++ [publishFinal s nr nt])).getLast?
      = some (publishFinal s nr nt)
    rw [← List.cons_append, ← List.cons_append]
    exact getLast_append_singleton _ _
  · show (loadStatesAux { s with rootHashes := nr } nt).2.rootHashes = nr
    exact (loadStatesAux_final nt { s with rootHashes := nr }).2.1
  · show (loadStatesAux { s with rootHashes := nr } nt).2.merkleTrees = _
    exact (loadStatesAux_final nt { s with rootHashes := nr }).1

/-- C5: over a static snapshot of a partition record table with strictly
increasing, positive identifiers, the worker batch loop (cursor from 0, pages
capped at the batch size, stop on an empty page or when the count reaches the
up-front total) produces exactly one leaf per record, in identifier order;
in particular the leaf count equals the record count and the result does not
depend on the page size. -/
theorem c5_pagination_completeness (k : HashFn) (db : List TokenRecord)
    (bs bs2 : Nat) (hsort : db.Pairwise (fun a b => a.id < b.id))
    (hpos : ∀ r ∈ db, 0 < r.id) (hbs : 1 ≤ bs) (hbs2 : 1 ≤ bs2) :
    generateLeavesByChain k db bs = Except.ok (db.map (leafOf k))
    ∧ (db.map (leafOf k)).length = db.length
    ∧ generateLeavesByChain k db bs = generateLeavesByChain k db bs2 := by
  have h0 : ∀ b : Nat, 1 ≤ b →
      generateLeavesByChain k db b = Except.ok (db.map (leafOf k)) := by
    intro b hb
    have hfilter : db.filter (fun r => decide (0 < r.id)) = db :=
      List.filter_eq_self.mpr (fun x hx => decide_eq_true (hpos x hx))
    have h := genLoopW_eq_of_fetch k db b hb hsort (db.length + 1) db 0 [] hfilter
      (by omega)
    rw [Nat.sub_self, List.nil_append] at h
    exact h
  exact ⟨h0 bs hbs, by simp, (h0 bs hbs).trans (h0 bs2 hbs2).symm⟩

/-- Witness for C5 on the three-record example table: page size 1 and page
size 3 both produce exactly the three leaves in order. -/
theorem c5_pagination_completeness_witness :
    generateLeavesByChain kCex dbEx 1 = Except.ok (dbEx.map (leafOf kCex))
    ∧ generateLeavesByChain kCex dbEx 1 = generateLeavesByChain kCex dbEx 3 := by
  have h := c5_pagination_completeness kCex dbEx 1 3 (by decide) (by decide)
    (by decide) (by decide)
  exact ⟨h.1, h.2.2⟩

/-- C6 counterexample: a transient record-source failure (attempt 1 fails,
attempt 2 would succeed) makes the regeneration worker batch loop fail
immediately — its fetch is a bare findMany with no retry — even though the
retrying fetcher of server.js survives the same oracle on its second attempt.
So it is not the case that every page fetch performed during a rebuild is
retried with bounded attempts. -/
theorem c6_worker_fetch_not_retried_counterexample :
    genLoopW (fun _ => attemptsTransient 1) kCex 100000 dbEx.length
      (dbEx.length + 1) 0 0 [] = Except.error ("ECONNRESET")
    ∧ fetchTokensBatch attemptsTransient 3 = (Except.ok dbEx, [5000]) :=
  ⟨rfl, rfl⟩

/-- C6 amended: only fetchTokensBatch of the single-chain server retries page
fetches — up to 3 attempts, sleeping 5000 times the attempt number after each
failed non-final attempt, returning the first success and propagating the
third failure. The multi-chain regeneration worker does not retry: a failing
first fetch fails that partition build with that error, and the resulting
error message leaves the published server state untouched, so nothing partial
is ever published. -/
theorem c6_retry_amended (attempts : Nat → Except String (List TokenRecord))
    (p : List TokenRecord) (e1 e2 e3 eW : String)
    (fetch : Nat → Except String (List TokenRecord))
    (k : HashFn) (bs total fuel : Nat) :
    (attempts 1 = Except.error e1 → attempts 2 = Except.error e2 →
      attempts 3 = Except.error e3 →
      fetchTokensBatch attempts 3 = (Except.error e3, [5000, 10000]))
    ∧ (attempts 1 = Except.error e1 → attempts 2 = Except.ok p →
      fetchTokensBatch attempts 3 = (Except.ok p, [5000]))
    ∧ (attempts 1 = Except.ok p → fetchTokensBatch attempts 3 = (Except.ok p, []))
    ∧ (fetch 0 = Except.error eW → 0 < total →
      genLoopW fetch k bs total (fuel + 1) 0 0 [] = Except.error eW)
    ∧ (∀ s : ServerState, stepEv s (WEvent.msgError eW) = s) := by
  refine ⟨?_, ?_, ?_, ?_, fun s => rfl⟩
  · intro h1 h2 h3
    simp [fetchTokensBatch, fetchRetry, h1, h2, h3]
  · intro h1 h2
    simp [fetchTokensBatch, fetchRetry, h1, h2]
  · intro h1
    simp [fetchTokensBatch, fetchRetry, h1]
  · intro hf ht
    simp [genLoopW, ht, hf]

/-- Witness for the amended C6: exhausted retries return the third error
after delays 5000 and 10000; a transient failure is survived with one delay;
a failing worker fetch fails the worker build at once. -/
theorem c6_retry_amended_witness :
    fetchTokensBatch attemptsDown 3 =
      (Except.error ("database unavailable"), [5000, 10000])
    ∧ fetchTokensBatch attemptsTransient 3 = (Except.ok dbEx, [5000])
    ∧ genLoopW (fun _ => Except.error ("ECONNRESET")) kCex 100000 3 1 0 0 []
      = Except.error ("ECONNRESET") :=
  ⟨(c6_retry_amended attemptsDown dbEx ("database unavailable")
      ("database unavailable") ("database unavailable") ("x")
      (fun _ => Except.error ("x")) kCex 1 1 0).1 rfl rfl rfl,
   (c6_retry_amended attemptsTransient dbEx ("ECONNRESET") ("y") ("y") ("y")
      (fun _ => Except.error ("y")) kCex 1 1 0).2.1 rfl rfl,
   (c6_retry_amended (fun _ => Except.ok []) [] ("z") ("z") ("z") ("ECONNRESET")
      (fun _ => Except.error ("ECONNRESET")) kCex 100000 3 0).2.2.2.1 rfl
      (by decide)⟩

/-- C2: snapshot round trip. For every non-empty leaf sequence of byte
buffers, persisting the worker tree (hex leaves plus the recorded options
hashLeaves false and sortPairs true, JSON-encoded and gzipped) and loading
the artifact back (gunzip, parse, reconstruct from the stored hex leaves and
stored options) yields exactly the tree that was persisted, hence a tree with
the same root and, for every original leaf, an identical inclusion proof.
The JSON and gzip codecs are external libraries, taken as parameters assumed
inverse on this payload. -/
theorem c2_load_persist_roundtrip (k : HashFn) (leaves : List Bytes)
    (gz : List Char → List Nat) (gunz : List Nat → List Char)
    (jstr : Artifact → List Char) (jparse : List Char → Option Artifact)
    (_hne : leaves ≠ [])
    (hbytes : ∀ b ∈ leaves, ∀ x ∈ b, x < 256)
    (hgz : gunz (gz (jstr (persistArtifact k (mkWorkerTree leaves)))) =
      jstr (persistArtifact k (mkWorkerTree leaves)))
    (hjs : jparse (jstr (persistArtifact k (mkWorkerTree leaves))) =
      some (persistArtifact k (mkWorkerTree leaves))) :
    loadTree gunz jparse (persistBytes gz jstr k (mkWorkerTree leaves)) =
      some (mkWorkerTree leaves)
    ∧ (loadTree gunz jparse (persistBytes gz jstr k (mkWorkerTree leaves))).map
        (treeRoot k) = some (treeRoot k (mkWorkerTree leaves))
    ∧ ∀ l ∈ leaves,
        (loadTree gunz jparse (persistBytes gz jstr k (mkWorkerTree leaves))).map
          (fun t2 => getHexProof k t2 l) = some (getHexProof k (mkWorkerTree leaves) l) := by
  have heff : effLeaves k (mkWorkerTree leaves) = leaves := rfl
  have heq : treeOfArtifact (persistArtifact k (mkWorkerTree leaves)) =
      mkWorkerTree leaves := by
    unfold treeOfArtifact persistArtifact
    rw [heff, hex_map_roundtrip leaves hbytes]
    rfl
  have hload : loadTree gunz jparse (persistBytes gz jstr k (mkWorkerTree leaves)) =
      some (mkWorkerTree leaves) := by
    unfold loadTree persistBytes
    rw [hgz, hjs]
    show some (treeOfArtifact (persistArtifact k (mkWorkerTree leaves))) = _
    rw [heq]
  exact ⟨hload, by rw [hload]; rfl, fun l _ => by rw [hload]; rfl⟩

/-- Witness for C2 on a concrete three-leaf tree, with codecs instantiated by
inverse functions on the persisted payload. -/
theorem c2_load_persist_roundtrip_witness :
    loadTree (fun _ => []) (fun _ => some artW)
      (persistBytes (fun _ => []) (fun _ => []) kCex (mkWorkerTree leavesW)) =
      some (mkWorkerTree leavesW) :=
  (c2_load_persist_roundtrip kCex leavesW (fun _ => []) (fun _ => []) (fun _ => [])
    (fun _ => some artW) (by decide) (by decide) rfl rfl).1

/-- C7 counterexample: the persist step of the worker, traced as filesystem
operations, performs a recursive mkdir and exactly one writeFile aimed
directly at the final per-chain artifact path; no operation is a rename and
no temporary location appears, refuting the claim that the write goes to a
temporary location and is atomically renamed into place. -/
theorem c7_no_atomic_rename_counterexample :
    persistOps (fun _ => [31, 139]) (fun _ => []) kCex ("ETH") tNewE =
      [FsOp.mkdirRec ("merkle_trees"),
       FsOp.writeFile ("merkle_trees/ETH_tree.json.gz") [31, 139]]
    ∧ (persistOps (fun _ => [31, 139]) (fun _ => []) kCex ("ETH") tNewE).any isRenameOp
      = false
    ∧ (persistOps (fun _ => [31, 139]) (fun _ => []) kCex ("ETH") tNewE).filterMap
        writeTargetOf = [treeFilePath ("ETH")] :=
  ⟨rfl, rfl, rfl⟩

/-- C7 amended: persisting a snapshot writes the complete compressed artifact
with a single writeFile call directly to the final per-chain path, after a
recursive mkdir of the directory; no rename operation and no temporary
location are involved, so all-or-nothing visibility for readers is not
established by the code itself. -/
theorem c7_direct_final_write (gz : List Char → List Nat) (jstr : Artifact → List Char)
    (k : HashFn) (chain : String) (t : STree) :
    (persistOps gz jstr k chain t).any isRenameOp = false
    ∧ (persistOps gz jstr k chain t).filterMap writeTargetOf = [treeFilePath chain]
    ∧ persistOps gz jstr k chain t =
      [FsOp.mkdirRec ("merkle_trees"),
       FsOp.writeFile (treeFilePath chain) (persistBytes gz jstr k t)] :=
  ⟨rfl, rfl, rfl⟩
